import Mathlib

/-!
Shallow embedding of `src/boltzmann/brbm.py` (a Bernoulli restricted
Boltzmann machine trained by persistent contrastive divergence).

Modelling conventions:
* a TensorFlow tensor of shape `[m, n]` is a function `Fin m → Fin n → ℝ`;
* the implicit uniform random draws made by `random` inside `activate` and
  the Gibbs chain are passed as explicit tensor arguments (one per draw);
* Python floats are modelled as real numbers; the `History` sink, which only
  manipulates decimal renderings, models float values as exact rationals;
* the Python `for step in tf.range(max_iter)` loop of `relax` returns the
  loop variable `step` after the loop; when `max_iter = 0` the loop body
  never runs, `step` is never bound, and the `return` raises `NameError`.
  This is embedded by making `relax` return an `Option`: `none` models the
  `NameError`.
-/

/-- A rank-2 tensor of shape `[m, n]`, entries real. -/
abbrev Tensor (m n : ℕ) : Type := Fin m → Fin n → ℝ

/-- Embeds `outer(x, y) = tf.expand_dims(x, -1) * tf.expand_dims(y, -2)`:
the batch of outer products, a `[B, m, n]` tensor; the last two axes are
modelled as a product index. -/
def outer {B m n : ℕ} (x : Tensor B m) (y : Tensor B n) :
    Fin B → Fin m × Fin n → ℝ :=
  fun i pq => x i pq.1 * y i pq.2

/-- Embeds `expect(x) = tf.reduce_mean(x, axis=0)`: the mean over the batch
axis.  `ι` is the index of the remaining axes (`Fin n` for a rank-2 input,
`Fin m × Fin n` for a rank-3 input). -/
noncomputable def expect {B : ℕ} {ι : Type} (x : Fin B → ι → ℝ) : ι → ℝ :=
  fun j => (∑ i, x i j) / B

/-- Embeds the `ambient_bias` initializer of `GlorotInitializer`:
`b = 1 / (expect(samples) + eps)`. -/
noncomputable def GlorotInitializer_ambient_bias {N A : ℕ}
    (samples : Tensor N A) (eps : ℝ) : Fin A → ℝ :=
  fun j => 1 / (expect samples j + eps)

/-- Embeds the `ambient_bias` initializer of `HintonInitializer`:
`b = log(p + eps) - log(1 - p + eps)` with `p = expect(samples)`. -/
noncomputable def HintonInitializer_ambient_bias {N A : ℕ}
    (samples : Tensor N A) (eps : ℝ) : Fin A → ℝ :=
  fun j => Real.log (expect samples j + eps)
           - Real.log (1 - expect samples j + eps)

/-- Embeds the `BernoulliRBM` class: the three owned parameter tensors
(`kernel : [ambient_size, latent_size]`, `latent_bias : [latent_size]`,
`ambient_bias : [ambient_size]`). -/
structure BernoulliRBM (ambient_size latent_size : ℕ) where
  kernel : Fin ambient_size → Fin latent_size → ℝ
  latent_bias : Fin latent_size → ℝ
  ambient_bias : Fin ambient_size → ℝ

/-- Embeds `tf.sigmoid`. -/
noncomputable def sigmoid (x : ℝ) : ℝ := 1 / (1 + Real.exp (-x))

/-- Embeds `activate(prob, stochastic)`.  The deterministic branch is
`tf.where(prob >= 0.5, 1, 0)`; the stochastic branch is
`tf.where(random(prob.shape) <= prob, 1, 0)` where the uniform draw
`random(prob.shape)` is passed explicitly as `u` (it is only consumed in
the stochastic branch). -/
noncomputable def activate {B n : ℕ} (prob : Tensor B n) (stochastic : Bool)
    (u : Tensor B n) : Tensor B n :=
  if stochastic = false then
    fun i j => if prob i j ≥ 1/2 then 1 else 0
  else
    fun i j => if u i j ≤ prob i j then 1 else 0

/-- Embeds `prob_latent_given_ambient`: `sigmoid(x @ W + b)`. -/
noncomputable def prob_latent_given_ambient {A L B : ℕ}
    (rbm : BernoulliRBM A L) (ambient : Tensor B A) : Tensor B L :=
  fun i q => sigmoid ((∑ p, ambient i p * rbm.kernel p q) + rbm.latent_bias q)

/-- Embeds `prob_ambient_given_latent`: `sigmoid(h @ transpose(W) + v)`. -/
noncomputable def prob_ambient_given_latent {A L B : ℕ}
    (rbm : BernoulliRBM A L) (latent : Tensor B L) : Tensor B A :=
  fun i p => sigmoid ((∑ q, latent i q * rbm.kernel p q) + rbm.ambient_bias p)

/-- Dummy random supply for the deterministic calls to `activate` (the
deterministic branch never reads its draw). -/
def noRand {B n : ℕ} : Tensor B n := fun _ _ => 0

/-- The body of one iteration of the `relax` loop: deterministic latent
activation from the current ambient, then deterministic ambient activation
from that latent (`new_ambient`). -/
noncomputable def relaxStep {A L B : ℕ} (rbm : BernoulliRBM A L)
    (ambient : Tensor B A) : Tensor B A :=
  let latent_prob := prob_latent_given_ambient rbm ambient
  let latent := activate latent_prob false noRand
  let new_ambient_prob := prob_ambient_given_latent rbm latent
  activate new_ambient_prob false noRand

/-- Embeds the convergence test `tf.reduce_max(tf.abs(new - old)) < tol`.
For a nonempty tensor the maximum is below `tol` iff every entry is; for an
empty tensor `reduce_max` is `-inf`, which is below every `tol`, matching
the vacuous universal quantifier. -/
def converged {B A : ℕ} (tol : ℝ) (newA oldA : Tensor B A) : Prop :=
  ∀ i j, |newA i j - oldA i j| < tol

/-- One-round convergence of `relax` at state `a`: the loop would break
immediately from `a`. -/
noncomputable def relaxConverges {A L B : ℕ} (rbm : BernoulliRBM A L)
    (tol : ℝ) (a : Tensor B A) : Prop :=
  converged tol (relaxStep rbm a) a

open Classical

/-- The `relax` loop over the remaining values of the loop variable `step`.
The second component tracks the last value bound to `step` (`none` while it
has never been bound).  On break the current (pre-update) ambient is
returned together with the breaking `step`; otherwise the loop continues on
`new_ambient`. -/
noncomputable def relaxAux {A L B : ℕ} (rbm : BernoulliRBM A L) (tol : ℝ) :
    Tensor B A → Option ℕ → List ℕ → Tensor B A × Option ℕ
  | ambient, last, [] => (ambient, last)
  | ambient, _, step :: rest =>
      let new_ambient := relaxStep rbm ambient
      if converged tol new_ambient ambient then (ambient, some step)
      else relaxAux rbm tol new_ambient (some step) rest

/-- Embeds `relax(rbm, ambient, max_iter, tol)`.  The result is `none`
exactly when the Python `return ambient, step` would raise `NameError`
because the loop never ran and `step` was never bound. -/
noncomputable def relax {A L B : ℕ} (rbm : BernoulliRBM A L)
    (ambient : Tensor B A) (max_iter : ℕ) (tol : ℝ) :
    Option (Tensor B A × ℕ) :=
  match relaxAux rbm tol ambient none (List.range max_iter) with
  | (a, some step) => some (a, step)
  | (_, none) => none

/-- Embeds `get_energy(rbm, ambient, latent)`: per batch row,
`- reduce_sum(x @ W * h, axis=-1) - reduce_mean(h * b, axis=-1)
 - reduce_mean(x * v, axis=-1)`. -/
noncomputable def get_energy {A L B : ℕ} (rbm : BernoulliRBM A L)
    (ambient : Tensor B A) (latent : Tensor B L) : Fin B → ℝ :=
  fun i =>
    - (∑ q, (∑ p, ambient i p * rbm.kernel p q) * latent i q)
    - (∑ q, latent i q * rbm.latent_bias q) / L
    - (∑ p, ambient i p * rbm.ambient_bias p) / A

/-- Modelled from the spec's words (section 4.2), for comparison with the
code's `get_energy`: per batch row, minus the sum over paired dims of
`ambient·kernel·latent`, minus the mean of `latent*latent_bias`, minus the
mean of `ambient*ambient_bias`. -/
noncomputable def get_energy_spec {A L B : ℕ} (rbm : BernoulliRBM A L)
    (ambient : Tensor B A) (latent : Tensor B L) : Fin B → ℝ :=
  fun i =>
    - (∑ q, (∑ p, ambient i p * rbm.kernel p q) * latent i q)
    - (∑ q, latent i q * rbm.latent_bias q) / L
    - (∑ p, ambient i p * rbm.ambient_bias p) / A

/-- The textbook RBM energy, which uses summed (not averaged) bias terms;
used to show the code's formula deliberately differs from it. -/
noncomputable def energy_textbook {A L B : ℕ} (rbm : BernoulliRBM A L)
    (ambient : Tensor B A) (latent : Tensor B L) : Fin B → ℝ :=
  fun i =>
    - (∑ q, (∑ p, ambient i p * rbm.kernel p q) * latent i q)
    - (∑ q, latent i q * rbm.latent_bias q)
    - (∑ p, ambient i p * rbm.ambient_bias p)

/-- A `(gradient, parameter)` pair of `get_grads_and_vars`; the Python list
is heterogeneous, so each of the three shapes gets a constructor. -/
inductive GVPair (A L : ℕ) where
  | kernelGV (grad var : Fin A → Fin L → ℝ)
  | latentGV (grad var : Fin L → ℝ)
  | ambientGV (grad var : Fin A → ℝ)

/-- Embeds `get_grads_and_vars(rbm, real_ambient, fantasy_latent)`.  The two
stochastic `activate` calls consume the explicit uniform draws `u1` (for
`real_latent`) and `u2` (for `fantasy_ambient`).  Stateful code becomes
explicit state passing: the model is returned alongside the list; the body
performs no assignment to any model field. -/
noncomputable def get_grads_and_vars {A L B : ℕ} (rbm : BernoulliRBM A L)
    (real_ambient : Tensor B A) (fantasy_latent : Tensor B L)
    (u1 : Tensor B L) (u2 : Tensor B A) :
    List (GVPair A L) × BernoulliRBM A L :=
  let real_latent_prob := prob_latent_given_ambient rbm real_ambient
  let real_latent := activate real_latent_prob true u1
  let fantasy_ambient_prob := prob_ambient_given_latent rbm fantasy_latent
  let fantasy_ambient := activate fantasy_ambient_prob true u2
  let grad_kernel : Fin A → Fin L → ℝ := fun p q =>
    (expect (outer fantasy_ambient_prob fantasy_latent)
      - expect (outer real_ambient real_latent)) (p, q)
  let grad_latent_bias := expect fantasy_latent - expect real_latent
  let grad_ambient_bias := expect fantasy_ambient - expect real_ambient
  ([GVPair.kernelGV grad_kernel rbm.kernel,
    GVPair.latentGV grad_latent_bias rbm.latent_bias,
    GVPair.ambientGV grad_ambient_bias rbm.ambient_bias], rbm)

/-- The body of one iteration of the `contrastive_divergence` loop: sample
ambient given latent (stochastic, draw `u.1`), then sample latent given
that ambient (stochastic, draw `u.2`). -/
noncomputable def cdBody {A L B : ℕ} (rbm : BernoulliRBM A L)
    (u : Tensor B A × Tensor B L) (fantasy_latent : Tensor B L) :
    Tensor B L :=
  let fantasy_ambient_prob := prob_ambient_given_latent rbm fantasy_latent
  let fantasy_ambient := activate fantasy_ambient_prob true u.1
  let fantasy_latent_prob := prob_latent_given_ambient rbm fantasy_ambient
  activate fantasy_latent_prob true u.2

/-- Embeds `contrastive_divergence(rbm, fantasy_latent, mc_steps)`: the
`for _ in tf.range(mc_steps)` loop of block Gibbs rounds; `us t` supplies
the pair of uniform draws of round `t`. -/
noncomputable def contrastive_divergence {A L B : ℕ}
    (rbm : BernoulliRBM A L) (fantasy_latent : Tensor B L) (mc_steps : ℕ)
    (us : ℕ → Tensor B A × Tensor B L) : Tensor B L :=
  (List.range mc_steps).foldl (fun fl t => cdBody rbm (us t) fl)
    fantasy_latent

/-- A value stored in a `History` step dict.  Python floats (and numpy
floats) are exact rationals here; `vnone` is Python `None` (also the
default of the `.get(k, None)` lookup); `vint` stands for any further
unsupported type. -/
inductive HistoryValue where
  | vfloat (x : ℚ)
  | vstr (s : String)
  | vnone
  | vint (n : ℤ)

/-- Whether `History.show` can render the value (the
`isinstance(v, (float, np.floating))` / `isinstance(v, str)` tests). -/
def isSupported : HistoryValue → Bool
  | .vfloat _ => true
  | .vstr _ => true
  | _ => false

/-- The Python type name, used in the `ValueError` message. -/
def typeNameOf : HistoryValue → String
  | .vfloat _ => "float"
  | .vstr _ => "str"
  | .vnone => "NoneType"
  | .vint _ => "int"

/-- Embeds `self.logs[step].get(k, None)`: a missing key yields `None`. -/
def lookupValue (lg : String → Option HistoryValue) (k : String) :
    HistoryValue :=
  match lg k with
  | some v => v
  | none => HistoryValue.vnone

/-- Round to the nearest integer, ties to even, as Python float formatting
does on the decimal value. -/
def roundHalfEven (q : ℚ) : ℤ :=
  let f := ⌊q⌋
  let r := q - f
  if r < 1/2 then f
  else if 1/2 < r then f + 1
  else if f % 2 = 0 then f else f + 1

/-- The decimal digit character of `d % 10`. -/
def digitChar (d : ℕ) : Char :=
  match d % 10 with
  | 0 => '0' | 1 => '1' | 2 => '2' | 3 => '3' | 4 => '4'
  | 5 => '5' | 6 => '6' | 7 => '7' | 8 => '8' | _ => '9'

/-- The 5-digit, zero-padded decimal rendering of `m % 100000`. -/
def frac5 (m : ℕ) : String :=
  String.mk [digitChar (m / 10000), digitChar (m / 1000), digitChar (m / 100),
             digitChar (m / 10), digitChar m]

/-- Embeds the Python fixed-point formatting `f-string` with spec `.5f`:
the value rounded to 5 decimal places, always printing 5 digits after the
decimal point. -/
def pyFormatFloat5 (q : ℚ) : String :=
  let n := (roundHalfEven (|q| * 100000)).toNat
  (if q < 0 then "-" else "") ++ toString (n / 100000) ++ "." ++
    frac5 (n % 100000)

/-- One `aspects` entry of `History.show`: format floats with `.5f`, pass
strings through, and raise `ValueError` for any other value type. -/
def renderAspect (lg : String → Option HistoryValue) (k : String) :
    Except String String :=
  match lookupValue lg k with
  | .vfloat x => Except.ok (k ++ ": " ++ pyFormatFloat5 x)
  | .vstr s => Except.ok (k ++ ": " ++ s)
  | v => Except.error ("Type " ++ typeNameOf v ++
      " is temporally not supported.")

/-- Embeds `History.show(step, keys)` (named `show'` because `show` is a
Lean keyword); `lg` is the step's dict.  The raised `ValueError` is the
`Except.error` case. -/
def History.show' (step : ℕ) (lg : String → Option HistoryValue)
    (keys : List String) : Except String String := do
  let aspects ← keys.mapM (renderAspect lg)
  pure (String.intercalate " - " (("step: " ++ toString step) :: aspects))

/-- An RBM whose three parameters are all zero, used for concrete runs. -/
def zeroRBM (A L : ℕ) : BernoulliRBM A L :=
  ⟨fun _ _ => 0, fun _ => 0, fun _ => 0⟩

/-- The all-ones `[1, 1]` ambient batch. -/
def ambOnes : Tensor 1 1 := fun _ _ => 1

/-- A concrete `[1, 2]`-shaped model separating the code's energy from the
textbook energy: zero kernel and ambient bias, latent bias all ones. -/
def rbmE : BernoulliRBM 1 2 := ⟨fun _ _ => 0, fun _ => 1, fun _ => 0⟩

/-- A concrete zero ambient batch for the energy comparison. -/
def xE : Tensor 1 1 := fun _ _ => 0

/-- A concrete all-ones latent batch for the energy comparison. -/
def hE : Tensor 1 2 := fun _ _ => 1

/-- A concrete `History` step dict: a float under "loss", an int under
"acc", nothing else. -/
def lgW : String → Option HistoryValue := fun k =>
  if k = "loss" then some (HistoryValue.vfloat (1/2))
  else if k = "acc" then some (HistoryValue.vint 7)
  else none

/-! ## Helper lemmas -/

theorem sigmoid_zero : sigmoid 0 = 1/2 := by
  unfold sigmoid
  rw [neg_zero, Real.exp_zero]
  norm_num

theorem activate_false_apply {B n : ℕ} (prob u : Tensor B n) (i : Fin B)
    (j : Fin n) :
    activate prob false u i j = if prob i j ≥ 1/2 then 1 else 0 := by
  simp [activate]

theorem activate_true_apply {B n : ℕ} (prob u : Tensor B n) (i : Fin B)
    (j : Fin n) :
    activate prob true u i j = if u i j ≤ prob i j then 1 else 0 := by
  simp [activate]

theorem relaxStep_zeroRBM {A L B : ℕ} (a : Tensor B A) :
    relaxStep (zeroRBM A L) a = fun _ _ => 1 := by
  funext i p
  simp [relaxStep, activate, prob_latent_given_ambient,
    prob_ambient_given_latent, zeroRBM, sigmoid_zero]


theorem relaxAux_nil {A L B : ℕ} (rbm : BernoulliRBM A L) (tol : ℝ)
    (a : Tensor B A) (last : Option ℕ) :
    relaxAux rbm tol a last [] = (a, last) := by
  simp [relaxAux]

theorem relaxAux_cons {A L B : ℕ} (rbm : BernoulliRBM A L) (tol : ℝ)
    (a : Tensor B A) (last : Option ℕ) (step : ℕ) (rest : List ℕ) :
    relaxAux rbm tol a last (step :: rest) =
      if converged tol (relaxStep rbm a) a then (a, some step)
      else relaxAux rbm tol (relaxStep rbm a) (some step) rest := by
  simp [relaxAux]

theorem relaxAux_of_not_converged {A L B : ℕ} (rbm : BernoulliRBM A L)
    (tol : ℝ) :
    ∀ (n s : ℕ) (a : Tensor B A) (last : Option ℕ),
      (∀ k, k < n → ¬ relaxConverges rbm tol ((relaxStep rbm)^[k] a)) →
      relaxAux rbm tol a last (List.range' s n) =
        ((relaxStep rbm)^[n] a,
          if n = 0 then last else some (s + n - 1)) := by
  intro n
  induction n with
  | zero =>
      intro s a last _
      simp [relaxAux_nil]
  | succ m ih =>
      intro s a last h
      have h0 : ¬ converged tol (relaxStep rbm a) a := by
        have := h 0 (Nat.succ_pos m)
        simpa [relaxConverges] using this
      rw [List.range'_succ, relaxAux_cons, if_neg h0]
      have h' : ∀ k, k < m →
          ¬ relaxConverges rbm tol ((relaxStep rbm)^[k] (relaxStep rbm a)) := by
        intro k hk
        rw [← Function.iterate_succ_apply]
        exact h (k + 1) (Nat.succ_lt_succ hk)
      rw [ih (s + 1) (relaxStep rbm a) (some s) h',
        ← Function.iterate_succ_apply]
      rcases m with _ | k
      · simp
      · simp only [Nat.succ_ne_zero, if_false, Prod.mk.injEq, true_and]
        congr 1
        omega

theorem relaxAux_of_min_converged {A L B : ℕ} (rbm : BernoulliRBM A L)
    (tol : ℝ) :
    ∀ (k n s : ℕ) (a : Tensor B A) (last : Option ℕ),
      k < n →
      relaxConverges rbm tol ((relaxStep rbm)^[k] a) →
      (∀ j, j < k → ¬ relaxConverges rbm tol ((relaxStep rbm)^[j] a)) →
      relaxAux rbm tol a last (List.range' s n) =
        ((relaxStep rbm)^[k] a, some (s + k)) := by
  intro k
  induction k with
  | zero =>
      intro n s a last hk hc _
      obtain ⟨m, rfl⟩ : ∃ m, n = m + 1 := ⟨n - 1, by omega⟩
      rw [List.range'_succ, relaxAux_cons,
        if_pos (by simpa [relaxConverges] using hc)]
      simp
  | succ m ih =>
      intro n s a last hk hc hmin
      obtain ⟨p, rfl⟩ : ∃ p, n = p + 1 := ⟨n - 1, by omega⟩
      have h0 : ¬ converged tol (relaxStep rbm a) a := by
        have := hmin 0 (Nat.succ_pos m)
        simpa [relaxConverges] using this
      rw [List.range'_succ, relaxAux_cons, if_neg h0]
      have hc' : relaxConverges rbm tol
          ((relaxStep rbm)^[m] (relaxStep rbm a)) := by
        rw [← Function.iterate_succ_apply]
        exact hc
      have hmin' : ∀ j, j < m →
          ¬ relaxConverges rbm tol ((relaxStep rbm)^[j] (relaxStep rbm a)) := by
        intro j hj
        rw [← Function.iterate_succ_apply]
        exact hmin (j + 1) (Nat.succ_lt_succ hj)
      rw [ih p (s + 1) (relaxStep rbm a) (some s) (by omega) hc' hmin',
        ← Function.iterate_succ_apply]
      simp only [Prod.mk.injEq, true_and]
      congr 1
      omega

theorem relaxAux_snd_isSome {A L B : ℕ} (rbm : BernoulliRBM A L) (tol : ℝ) :
    ∀ (l : List ℕ) (a : Tensor B A) (last : Option ℕ),
      (last.isSome = true ∨ l ≠ []) →
      ((relaxAux rbm tol a last l).2).isSome = true := by
  intro l
  induction l with
  | nil =>
      intro a last h
      rcases h with h | h
      · simpa [relaxAux_nil] using h
      · exact absurd rfl h
  | cons x xs ih =>
      intro a last _
      rw [relaxAux_cons]
      split
      · simp
      · exact ih _ (some x) (Or.inl rfl)

theorem relax_eq_of_min_converged {A L B : ℕ} (rbm : BernoulliRBM A L)
    (ambient : Tensor B A) (max_iter : ℕ) (tol : ℝ) (k : ℕ)
    (hk : k < max_iter)
    (hc : relaxConverges rbm tol ((relaxStep rbm)^[k] ambient))
    (hmin : ∀ j, j < k →
      ¬ relaxConverges rbm tol ((relaxStep rbm)^[j] ambient)) :
    relax rbm ambient max_iter tol = some ((relaxStep rbm)^[k] ambient, k) := by
  unfold relax
  rw [List.range_eq_range',
    relaxAux_of_min_converged rbm tol k max_iter 0 ambient none hk hc hmin]
  simp

theorem relax_eq_of_never_converged {A L B : ℕ} (rbm : BernoulliRBM A L)
    (ambient : Tensor B A) (max_iter : ℕ) (tol : ℝ) (hmi : 1 ≤ max_iter)
    (hnc : ∀ k, k < max_iter →
      ¬ relaxConverges rbm tol ((relaxStep rbm)^[k] ambient)) :
    relax rbm ambient max_iter tol =
      some ((relaxStep rbm)^[max_iter] ambient, max_iter - 1) := by
  unfold relax
  rw [List.range_eq_range',
    relaxAux_of_not_converged rbm tol max_iter 0 ambient none hnc,
    if_neg (by omega)]
  simp


theorem relaxStep_zeroRBM_ambOnes :
    relaxStep (zeroRBM 1 1) ambOnes = ambOnes := by
  rw [relaxStep_zeroRBM]
  rfl

theorem not_relaxConverges_zeroRBM_ambOnes (k : ℕ) :
    ¬ relaxConverges (zeroRBM 1 1) 0 ((relaxStep (zeroRBM 1 1))^[k] ambOnes) := by
  rw [Function.iterate_fixed relaxStep_zeroRBM_ambOnes]
  intro h
  have h2 := h 0 0
  rw [relaxStep_zeroRBM_ambOnes] at h2
  simp [ambOnes] at h2

/-! ## Claim theorems -/

/-- C1 (amended): for `max_iter ≥ 1`, `relax` returns `some` final state and
count with count below `max_iter`; it stops at the first iteration `k` whose
relaxation round changes the ambient state by less than `tol` everywhere,
returning the state entering that round together with `k`; and when no
iteration converges it returns the `max_iter`-times-updated state with count
`max_iter - 1` (not `max_iter` as the original claim stated). -/
theorem relax_correct {A L B : ℕ} (rbm : BernoulliRBM A L)
    (ambient : Tensor B A) (max_iter : ℕ) (tol : ℝ) (hmi : 1 ≤ max_iter) :
    (∃ a s, relax rbm ambient max_iter tol = some (a, s) ∧ s < max_iter) ∧
    (∀ k, k < max_iter →
      relaxConverges rbm tol ((relaxStep rbm)^[k] ambient) →
      (∀ j, j < k → ¬ relaxConverges rbm tol ((relaxStep rbm)^[j] ambient)) →
      relax rbm ambient max_iter tol =
        some ((relaxStep rbm)^[k] ambient, k)) ∧
    ((∀ k, k < max_iter →
        ¬ relaxConverges rbm tol ((relaxStep rbm)^[k] ambient)) →
      relax rbm ambient max_iter tol =
        some ((relaxStep rbm)^[max_iter] ambient, max_iter - 1)) := by
  refine ⟨?_,
    fun k hk hc hmin =>
      relax_eq_of_min_converged rbm ambient max_iter tol k hk hc hmin,
    fun hnc =>
      relax_eq_of_never_converged rbm ambient max_iter tol hmi hnc⟩
  by_cases hex : ∃ k, k < max_iter ∧
      relaxConverges rbm tol ((relaxStep rbm)^[k] ambient)
  · have hspec := Nat.find_spec hex
    have hmin : ∀ j, j < Nat.find hex →
        ¬ relaxConverges rbm tol ((relaxStep rbm)^[j] ambient) := by
      intro j hj hcj
      exact Nat.find_min hex hj ⟨lt_trans hj hspec.1, hcj⟩
    exact ⟨_, Nat.find hex,
      relax_eq_of_min_converged rbm ambient max_iter tol (Nat.find hex)
        hspec.1 hspec.2 hmin, hspec.1⟩
  · push_neg at hex
    exact ⟨_, max_iter - 1,
      relax_eq_of_never_converged rbm ambient max_iter tol hmi hex,
      by omega⟩

/-- C1 witness: on the all-zero model the all-ones state is a fixed point,
so with `tol = 1` the run converges at iteration 0 and `relax` returns the
unchanged state with count 0. -/
theorem relax_correct_witness :
    relax (zeroRBM 1 1) ambOnes 2 1 = some (ambOnes, 0) := by
  have hc : relaxConverges (zeroRBM 1 1) 1
      ((relaxStep (zeroRBM 1 1))^[0] ambOnes) := by
    rw [Function.iterate_zero_apply]
    show converged 1 (relaxStep (zeroRBM 1 1) ambOnes) ambOnes
    rw [relaxStep_zeroRBM_ambOnes]
    intro i j
    norm_num
  have h := (relax_correct (zeroRBM 1 1) ambOnes 2 1 (by norm_num)).2.1 0
    (by norm_num) hc (fun j hj => absurd hj (Nat.not_lt_zero j))
  simpa using h

/-- C1 counterexample: on the all-zero model with `tol = 0` no iteration can
converge (no absolute change is below `0`), yet `relax` with `max_iter = 2`
returns iteration count `1`, not `max_iter = 2` as the claim states. -/
theorem relax_count_counterexample :
    relax (zeroRBM 1 1) ambOnes 2 0 = some (ambOnes, 1) ∧
    ¬ converged 0 (relaxStep (zeroRBM 1 1) ambOnes) ambOnes := by
  constructor
  · rw [relax_eq_of_never_converged (zeroRBM 1 1) ambOnes 2 0 (by norm_num)
      (fun k _ => not_relaxConverges_zeroRBM_ambOnes k),
      Function.iterate_fixed relaxStep_zeroRBM_ambOnes]
  · intro h
    have h2 := h 0 0
    rw [relaxStep_zeroRBM_ambOnes] at h2
    simp [ambOnes] at h2

/-- C5 (amended): an ambient state that one relaxation round reproduces
exactly is returned unchanged with iteration count 0, provided `tol > 0`
(for `tol ≤ 0` the convergence test `max |change| < tol` can never pass, the
loop runs all `max_iter` iterations and the count is `max_iter - 1`, though
the state is still unchanged). -/
theorem relax_fixed_point {A L B : ℕ} (rbm : BernoulliRBM A L)
    (ambient : Tensor B A) (max_iter : ℕ) (tol : ℝ)
    (hfp : relaxStep rbm ambient = ambient) (htol : 0 < tol)
    (hmi : 1 ≤ max_iter) :
    relax rbm ambient max_iter tol = some (ambient, 0) := by
  have hc : relaxConverges rbm tol ((relaxStep rbm)^[0] ambient) := by
    rw [Function.iterate_zero_apply]
    show converged tol (relaxStep rbm ambient) ambient
    rw [hfp]
    intro i j
    simpa using htol
  have h := relax_eq_of_min_converged rbm ambient max_iter tol 0 (by omega)
    hc (fun j hj => absurd hj (Nat.not_lt_zero j))
  simpa using h

/-- C5 witness: the all-ones state is a fixed point of the all-zero model's
relaxation round; with `tol = 1 > 0` it is returned unchanged at
iteration 0. -/
theorem relax_fixed_point_witness :
    relaxStep (zeroRBM 1 1) ambOnes = ambOnes ∧ (0 : ℝ) < 1 ∧
    relax (zeroRBM 1 1) ambOnes 1 1 = some (ambOnes, 0) := by
  refine ⟨relaxStep_zeroRBM_ambOnes, by norm_num, ?_⟩
  exact relax_fixed_point (zeroRBM 1 1) ambOnes 1 1
    relaxStep_zeroRBM_ambOnes (by norm_num) (by norm_num)

/-- C5 counterexample: the all-ones state is a fixed point of one relaxation
round on the all-zero model, but with `tol = 0` (the claim quantifies over
every `tol`) and `max_iter = 3` the convergence test `max |change| < 0`
never passes: `relax` returns at iteration count `2`, not `0` or `1`.  The
state is nevertheless unchanged. -/
theorem relax_fixed_point_counterexample :
    relaxStep (zeroRBM 1 1) ambOnes = ambOnes ∧
    relax (zeroRBM 1 1) ambOnes 3 0 = some (ambOnes, 2) := by
  refine ⟨relaxStep_zeroRBM_ambOnes, ?_⟩
  rw [relax_eq_of_never_converged (zeroRBM 1 1) ambOnes 3 0 (by norm_num)
    (fun k _ => not_relaxConverges_zeroRBM_ambOnes k),
    Function.iterate_fixed relaxStep_zeroRBM_ambOnes]

/-- C10: `relax` returns normally (a `some` result in this embedding) iff
`max_iter ≥ 1`; for `max_iter = 0` the loop body never executes, the loop
variable `step` is never bound, and the `return ambient, step` fails
(`none` here) instead of returning `(ambient, 0)`. -/
theorem relax_zero_max_iter {A L B : ℕ} (rbm : BernoulliRBM A L)
    (ambient : Tensor B A) (max_iter : ℕ) (tol : ℝ) :
    relax rbm ambient max_iter tol = none ↔ max_iter = 0 := by
  constructor
  · intro h
    by_contra hne
    have hs := relaxAux_snd_isSome rbm tol (List.range max_iter) ambient none
      (Or.inr (by simpa [List.range_eq_nil] using hne))
    unfold relax at h
    rcases hx : relaxAux rbm tol ambient none (List.range max_iter)
      with ⟨a, s⟩
    rw [hx] at h hs
    cases s with
    | none => simp at hs
    | some v => simp at h
  · rintro rfl
    rfl


/-- C4: deterministic activation is 0/1-valued, thresholds at `prob ≥ 0.5`,
is independent of the (unused) random supply, and is idempotent. -/
theorem activate_deterministic {B n : ℕ} (p u u' : Tensor B n) :
    (∀ i j, activate p false u i j = 0 ∨ activate p false u i j = 1) ∧
    (∀ i j, (activate p false u i j = 1 ↔ p i j ≥ 1/2)) ∧
    activate p false u = activate p false u' ∧
    activate (activate p false u) false u' = activate p false u := by
  refine ⟨?_, ?_, rfl, ?_⟩
  · intro i j
    rw [activate_false_apply]
    by_cases h : p i j ≥ 1/2
    · right
      rw [if_pos h]
    · left
      rw [if_neg h]
  · intro i j
    rw [activate_false_apply]
    by_cases h : p i j ≥ 1/2
    · simp [h]
    · simp [h]
  · funext i j
    simp only [activate_false_apply]
    by_cases h : p i j ≥ 1/2
    · rw [if_pos h, if_pos (by norm_num : (1:ℝ) ≥ 1/2)]
    · rw [if_neg h, if_neg (by norm_num : ¬ ((0:ℝ) ≥ 1/2))]

/-- C3: `get_energy` computes, per batch row, minus the sum of the paired
`ambient·kernel·latent` products, minus the mean (not the sum) of
`latent*latent_bias`, minus the mean (not the sum) of
`ambient*ambient_bias`, exactly as the spec writes it; on a concrete model
this differs from the textbook energy with summed bias terms. -/
theorem get_energy_matches_spec :
    (∀ (A L B : ℕ) (rbm : BernoulliRBM A L) (ambient : Tensor B A)
      (latent : Tensor B L),
      get_energy rbm ambient latent = get_energy_spec rbm ambient latent) ∧
    get_energy rbmE xE hE 0 ≠ energy_textbook rbmE xE hE 0 := by
  refine ⟨fun A L B rbm ambient latent => rfl, ?_⟩
  simp only [get_energy, energy_textbook, rbmE, xE, hE, Fin.sum_univ_two,
    Fin.sum_univ_one]
  norm_num

/-- C6: the PCD chain updater is the identity for `mc_steps = 0`, and each
further step applies exactly one more block Gibbs round (stochastic ambient
given latent, then stochastic latent given that ambient) to the previous
chain state. -/
theorem contrastive_divergence_spec {A L B : ℕ} (rbm : BernoulliRBM A L)
    (fantasy_latent : Tensor B L) (us : ℕ → Tensor B A × Tensor B L) :
    contrastive_divergence rbm fantasy_latent 0 us = fantasy_latent ∧
    ∀ n, contrastive_divergence rbm fantasy_latent (n + 1) us =
      cdBody rbm (us n) (contrastive_divergence rbm fantasy_latent n us) := by
  constructor
  · rfl
  · intro n
    unfold contrastive_divergence
    rw [List.range_succ, List.foldl_append]
    rfl

/-- C7: `get_grads_and_vars` is pure with respect to the model: the model
threaded through the call comes back unchanged, and the parameter component
of each returned pair is exactly the model's corresponding (unmodified)
parameter. -/
theorem get_grads_and_vars_frame {A L B : ℕ} (rbm : BernoulliRBM A L)
    (real_ambient : Tensor B A) (fantasy_latent : Tensor B L)
    (u1 : Tensor B L) (u2 : Tensor B A) :
    (get_grads_and_vars rbm real_ambient fantasy_latent u1 u2).2 = rbm ∧
    ∃ g1 g2 g3,
      (get_grads_and_vars rbm real_ambient fantasy_latent u1 u2).1 =
        [GVPair.kernelGV g1 rbm.kernel,
         GVPair.latentGV g2 rbm.latent_bias,
         GVPair.ambientGV g3 rbm.ambient_bias] :=
  ⟨rfl, _, _, _, rfl⟩

/-- C8: the Glorot-strategy ambient bias is exactly `1 / (mean + eps)` and
the Hinton-strategy ambient bias is exactly `log(p+eps) - log(1-p+eps)`
with `p` the per-feature sample mean; for samples with entries in `[0, 1]`
and `eps > 0` both logarithm arguments (and the Glorot denominator) are
strictly positive, so no infinity can arise, even at `p = 0` or `p = 1`. -/
theorem ambient_bias_initializers_spec {N A : ℕ} (samples : Tensor N A)
    (eps : ℝ) (heps : 0 < eps)
    (hs : ∀ i j, 0 ≤ samples i j ∧ samples i j ≤ 1) :
    ∀ j, GlorotInitializer_ambient_bias samples eps j =
        1 / (expect samples j + eps) ∧
      HintonInitializer_ambient_bias samples eps j =
        Real.log (expect samples j + eps) -
          Real.log (1 - expect samples j + eps) ∧
      0 < expect samples j + eps ∧ 0 < 1 - expect samples j + eps := by
  intro j
  have h0 : 0 ≤ expect samples j := by
    unfold expect
    apply div_nonneg
    · exact Finset.sum_nonneg fun i _ => (hs i j).1
    · exact Nat.cast_nonneg N
  have h1 : expect samples j ≤ 1 := by
    unfold expect
    rcases Nat.eq_zero_or_pos N with hN | hN
    · subst hN
      simp
    · rw [div_le_one (by exact_mod_cast hN)]
      calc ∑ i, samples i j ≤ ∑ _i : Fin N, (1:ℝ) :=
            Finset.sum_le_sum fun i _ => (hs i j).2
        _ = N := by simp
  exact ⟨rfl, rfl, by linarith, by linarith⟩

/-- C8 witness: the one-sample all-zero batch with `eps = 1` satisfies the
hypotheses, and the guarded quantities are positive there. -/
theorem ambient_bias_initializers_spec_witness :
    GlorotInitializer_ambient_bias xE 1 0 = 1 / (expect xE 0 + 1) ∧
    0 < expect xE 0 + 1 ∧ 0 < 1 - expect xE 0 + 1 := by
  have h := ambient_bias_initializers_spec xE 1 (by norm_num)
    (fun i j => by constructor <;> norm_num [xE]) 0
  exact ⟨h.1, h.2.2.1, h.2.2.2⟩


/-- C2: `get_grads_and_vars` returns exactly three (gradient, parameter)
pairs: the kernel gradient is the batch mean of the outer product of
`fantasy_ambient_prob` with `fantasy_latent` minus the batch mean of the
outer product of `real_ambient` with the sampled `real_latent`; the
latent-bias gradient is `mean(fantasy_latent) - mean(real_latent)`; and the
ambient-bias gradient is `mean(fantasy_ambient) - mean(real_ambient)`,
where `real_latent` and `fantasy_ambient` are the stochastic activations of
the corresponding conditional probabilities. -/
theorem get_grads_and_vars_formula {A L B : ℕ} (rbm : BernoulliRBM A L)
    (real_ambient : Tensor B A) (fantasy_latent : Tensor B L)
    (u1 : Tensor B L) (u2 : Tensor B A) :
    (get_grads_and_vars rbm real_ambient fantasy_latent u1 u2).1 =
      [GVPair.kernelGV
        (fun p q =>
          (∑ i, prob_ambient_given_latent rbm fantasy_latent i p *
              fantasy_latent i q) / B -
          (∑ i, real_ambient i p *
              activate (prob_latent_given_ambient rbm real_ambient) true u1
                i q) / B)
        rbm.kernel,
       GVPair.latentGV
        (fun q =>
          (∑ i, fantasy_latent i q) / B -
          (∑ i, activate (prob_latent_given_ambient rbm real_ambient) true u1
              i q) / B)
        rbm.latent_bias,
       GVPair.ambientGV
        (fun p =>
          (∑ i, activate (prob_ambient_given_latent rbm fantasy_latent) true
              u2 i p) / B -
          (∑ i, real_ambient i p) / B)
        rbm.ambient_bias] ∧
    (get_grads_and_vars rbm real_ambient fantasy_latent u1 u2).1.length
      = 3 := by
  refine ⟨?_, rfl⟩
  simp only [get_grads_and_vars, List.cons.injEq, and_true,
    GVPair.kernelGV.injEq, GVPair.latentGV.injEq, GVPair.ambientGV.injEq,
    true_and]
  refine ⟨?_, ?_, ?_⟩
  · funext p q
    simp [expect, outer]
  · funext q
    simp [expect, Pi.sub_apply]
  · funext p
    simp [expect, Pi.sub_apply]


theorem except_bind_ok {ε α β : Type} (a : α) (g : α → Except ε β) :
    (Except.ok a >>= g) = g a := rfl

theorem except_bind_error {ε α β : Type} (e : ε) (g : α → Except ε β) :
    ((Except.error e : Except ε α) >>= g) = Except.error e := rfl

theorem digitChar_isDigit (d : ℕ) : (digitChar d).isDigit = true := by
  have h : d % 10 < 10 := Nat.mod_lt _ (by norm_num)
  unfold digitChar
  generalize hm : d % 10 = m
  rw [hm] at h
  interval_cases m <;> rfl

theorem renderAspect_float (lg : String → Option HistoryValue) (k : String)
    (x : ℚ) (h : lookupValue lg k = HistoryValue.vfloat x) :
    renderAspect lg k = Except.ok (k ++ ": " ++ pyFormatFloat5 x) := by
  simp [renderAspect, h]

theorem renderAspect_str (lg : String → Option HistoryValue) (k s : String)
    (h : lookupValue lg k = HistoryValue.vstr s) :
    renderAspect lg k = Except.ok (k ++ ": " ++ s) := by
  simp [renderAspect, h]

theorem renderAspect_error_iff (lg : String → Option HistoryValue)
    (k : String) :
    (∃ msg, renderAspect lg k = Except.error msg) ↔
      isSupported (lookupValue lg k) = false := by
  cases h : lookupValue lg k <;> simp [renderAspect, isSupported, h]

theorem mapM_renderAspect_error_iff (lg : String → Option HistoryValue) :
    ∀ keys : List String,
      (∃ msg, keys.mapM (renderAspect lg) = Except.error msg) ↔
        ∃ k ∈ keys, isSupported (lookupValue lg k) = false := by
  intro keys
  induction keys with
  | nil =>
      rw [List.mapM_nil]
      simp [pure, Except.pure]
  | cons a l ih =>
      rw [List.mapM_cons]
      cases ha : renderAspect lg a with
      | error e =>
          rw [except_bind_error]
          constructor
          · intro _
            exact ⟨a, by simp, (renderAspect_error_iff lg a).mp ⟨e, ha⟩⟩
          · intro _
            exact ⟨e, rfl⟩
      | ok x =>
          rw [except_bind_ok]
          cases hm : l.mapM (renderAspect lg) with
          | error e2 =>
              rw [except_bind_error]
              constructor
              · intro _
                obtain ⟨k, hk, hsup⟩ := ih.mp ⟨e2, hm⟩
                exact ⟨k, by simp [hk], hsup⟩
              · intro _
                exact ⟨e2, rfl⟩
          | ok xs =>
              rw [except_bind_ok]
              constructor
              · rintro ⟨msg, hmsg⟩
                exact absurd hmsg (by simp [pure, Except.pure])
              · rintro ⟨k, hk, hsup⟩
                rcases List.mem_cons.mp hk with rfl | hk'
                · obtain ⟨m, hmm⟩ := (renderAspect_error_iff lg k).mpr hsup
                  rw [ha] at hmm
                  exact absurd hmm (by simp)
                · obtain ⟨m, hmm⟩ := ih.mpr ⟨k, hk', hsup⟩
                  rw [hm] at hmm
                  exact absurd hmm (by simp)

theorem History_show_error_iff (step : ℕ)
    (lg : String → Option HistoryValue) (keys : List String) :
    (∃ msg, History.show' step lg keys = Except.error msg) ↔
      ∃ k ∈ keys, isSupported (lookupValue lg k) = false := by
  unfold History.show'
  cases hm : keys.mapM (renderAspect lg) with
  | error e =>
      rw [except_bind_error]
      constructor
      · intro _
        exact (mapM_renderAspect_error_iff lg keys).mp ⟨e, hm⟩
      · intro _
        exact ⟨e, rfl⟩
  | ok aspects =>
      rw [except_bind_ok]
      constructor
      · rintro ⟨msg, hmsg⟩
        exact absurd hmsg (by simp [pure, Except.pure])
      · intro hbad
        obtain ⟨m, hmm⟩ := (mapM_renderAspect_error_iff lg keys).mpr hbad
        rw [hm] at hmm
        exact absurd hmm (by simp)

theorem History_show_single (step : ℕ) (lg : String → Option HistoryValue)
    (k v : String) (h : renderAspect lg k = Except.ok v) :
    History.show' step lg [k] =
      Except.ok (String.intercalate " - " [("step: " ++ toString step), v]) := by
  unfold History.show'
  rw [List.mapM_cons, List.mapM_nil, h, except_bind_ok]
  rfl


theorem pyFormatFloat5_decimals (x : ℚ) :
    ∃ ip fr, pyFormatFloat5 x = ip ++ "." ++ fr ∧ fr.length = 5 ∧
      fr.data.all Char.isDigit = true := by
  refine ⟨(if x < 0 then "-" else "") ++
      toString ((roundHalfEven (|x| * 100000)).toNat / 100000),
    frac5 ((roundHalfEven (|x| * 100000)).toNat % 100000), rfl, rfl, ?_⟩
  simp [frac5, digitChar_isDigit]

/-- C9: `History.show` renders every float value through the 5-decimal-place
formatter (whose output always carries exactly five digit characters after
the decimal point), passes string values through unchanged into their
`key: value` aspect, and produces a reported error exactly when some
requested key holds a value of any other type (including a missing key,
whose lookup yields `None`). -/
theorem History_show_spec :
    (∀ x : ℚ, ∃ ip fr, pyFormatFloat5 x = ip ++ "." ++ fr ∧
      fr.length = 5 ∧ fr.data.all Char.isDigit = true) ∧
    (∀ (step : ℕ) (lg : String → Option HistoryValue) (k s : String),
      lookupValue lg k = HistoryValue.vstr s →
      History.show' step lg [k] = Except.ok
        (String.intercalate " - "
          [("step: " ++ toString step), k ++ ": " ++ s])) ∧
    (∀ (step : ℕ) (lg : String → Option HistoryValue) (k : String) (x : ℚ),
      lookupValue lg k = HistoryValue.vfloat x →
      History.show' step lg [k] = Except.ok
        (String.intercalate " - "
          [("step: " ++ toString step), k ++ ": " ++ pyFormatFloat5 x])) ∧
    (∀ (step : ℕ) (lg : String → Option HistoryValue) (keys : List String),
      (∃ k ∈ keys, isSupported (lookupValue lg k) = false) ↔
        ∃ msg, History.show' step lg keys = Except.error msg) := by
  refine ⟨pyFormatFloat5_decimals, ?_, ?_, ?_⟩
  · intro step lg k s h
    exact History_show_single step lg k _ (renderAspect_str lg k s h)
  · intro step lg k x h
    exact History_show_single step lg k _ (renderAspect_float lg k x h)
  · intro step lg keys
    exact (History_show_error_iff step lg keys).symm

theorem roundHalfEven_fifty_thousand : roundHalfEven 50000 = 50000 := by
  have hf : ⌊(50000 : ℚ)⌋ = 50000 := by
    rw [show (50000 : ℚ) = ((50000 : ℤ) : ℚ) by norm_num]
    exact Int.floor_intCast 50000
  unfold roundHalfEven
  rw [hf, if_pos (by norm_num)]

theorem pyFormatFloat5_half : pyFormatFloat5 (1/2) = "0.50000" := by
  unfold pyFormatFloat5
  rw [show |(1:ℚ)/2| * 100000 = 50000 by
      rw [abs_of_pos (by norm_num : (0:ℚ) < 1/2)]; norm_num,
    roundHalfEven_fifty_thousand, if_neg (by norm_num : ¬ ((1:ℚ)/2 < 0))]
  rfl

/-- C9 witness: on a concrete step dict, a float value renders with five
decimal places and an int value is reported as an error. -/
theorem History_show_spec_witness :
    History.show' 3 lgW ["loss"] = Except.ok "step: 3 - loss: 0.50000" ∧
    ∃ msg, History.show' 3 lgW ["acc"] = Except.error msg := by
  constructor
  · have h := History_show_spec.2.2.1 3 lgW "loss" (1/2) (by rfl)
    rw [h, pyFormatFloat5_half]
    rfl
  · exact (History_show_spec.2.2.2 3 lgW ["acc"]).mp ⟨"acc", by simp, by rfl⟩

